import Mathlib

/-!
Verification of the WatchMySix job-orchestration backend.

The definitions below are a shallow embedding of the Python sources
(`backend/app/job_runner.py`, `backend/app/tools.py`, `backend/app/models.py`).
Stateful code is modelled by explicit state passing: a workspace is a list of
named text files, a text file is a list of lines, and the concurrency gate is a
small labelled transition system.  Each claim of the specification is settled
by one theorem at the end of the file.
-/

namespace WatchMySix

/-! ## String primitives

Python `str.strip()` and `str.rstrip()` with no argument remove whitespace at
the ends of a string.  They are modelled over the character list of the
string, so that every definition in this file evaluates inside the kernel. -/

/-- Models Python `str.strip()`: drop whitespace characters from both ends. -/
def pyStrip (s : String) : String :=
  ⟨(((s.data.dropWhile Char.isWhitespace).reverse.dropWhile Char.isWhitespace).reverse)⟩

/-- Models Python `str.rstrip()`: drop whitespace characters from the right end. -/
def pyRstrip (s : String) : String :=
  ⟨((s.data.reverse.dropWhile Char.isWhitespace).reverse)⟩

/-- Models Python `str.startswith`, used to talk about the temporary bruteforce
file names of the form `<phase>_bruteforce_<hex>.txt`. -/
def strStartsWith (s p : String) : Bool :=
  p.data.isPrefixOf s.data

/-! ## Files and workspaces -/

/-- A plain-text file of a job workspace: a name and its lines.  The on-disk
files written by the tools are modelled by their line lists, exactly the view
`_merge_artifacts` takes of them when it iterates `reader` line by line. -/
structure TxtFile where
  name : String
  lines : List String
  deriving DecidableEq, Repr

/-! ## Merge engine (`JobManager._merge_artifacts`)

The Python loop keeps a `seen` set and an output handle.  The set is modelled
by a list (membership is all the code consults), and the written file by the
accumulated output list. -/

/-- The inner loop of `_merge_artifacts` over the lines of one file: each line
is stripped, blank lines are dropped, and a line is written to the output only
when it was not seen before.  Returns the updated seen list (newest first) and
the output written so far. -/
def mergeLinesAux : List String → List String → List String → List String × List String
  | seen, out, [] => (seen, out)
  | seen, out, line :: rest =>
    let normalized := pyStrip line
    if normalized = "" then mergeLinesAux seen out rest
    else if normalized ∈ seen then mergeLinesAux seen out rest
    else mergeLinesAux (normalized :: seen) (out ++ [normalized]) rest

/-- `_merge_artifacts`: iterate over every `*.txt` file of the workspace,
skipping the canonical target `subs.txt` itself, threading one `seen` set
across all files; the result is the content written to `subs.txt`. -/
def mergeArtifacts (files : List TxtFile) : List String :=
  (files.foldl
    (fun acc f =>
      if f.name = "subs.txt" then acc
      else mergeLinesAux acc.1 acc.2 f.lines)
    ([], [])).2

/-- The workspace after the merge pass: the previous files (minus any stale
`subs.txt`) plus the freshly written `subs.txt`.  The merge always opens the
canonical file for writing, so `subs.txt` exists afterwards even when it is
empty. -/
def mergeWorkspace (files : List TxtFile) : List TxtFile :=
  files.filter (fun f => f.name ≠ "subs.txt") ++ [⟨"subs.txt", mergeArtifacts files⟩]

/-- The stripped, non-blank lines of one file, in file order. -/
def normalizeLines (lines : List String) : List String :=
  (lines.map pyStrip).filter (fun l => l ≠ "")

/-- The full normalized input stream of the merge: all files except the
canonical target, concatenated in encounter order. -/
def mergeInputLines (files : List TxtFile) : List String :=
  ((files.filter (fun f => f.name ≠ "subs.txt")).map (fun f => normalizeLines f.lines)).flatten

/-- First-occurrence deduplication relative to an already-seen list. -/
def dedupSeen (seen : List String) : List String → List String
  | [] => []
  | x :: xs => if x ∈ seen then dedupSeen seen xs else x :: dedupSeen (x :: seen) xs

/-- The seen list produced by scanning a line stream. -/
def threadSeen (seen : List String) : List String → List String
  | [] => seen
  | x :: xs => if x ∈ seen then threadSeen seen xs else threadSeen (x :: seen) xs

/-- Keep the first occurrence of every element, drop the later ones.  This is
the plain mathematical reading of first-encountered-order deduplication. -/
def firstDedup : List String → List String
  | [] => []
  | x :: xs => x :: firstDedup (xs.filter (fun y => y ≠ x))
termination_by l => l.length
decreasing_by
  simp only [List.length_cons]
  exact Nat.lt_succ_of_le (List.length_filter_le _ _)

/-! ## History update (`JobManager._renew_with_anew`) -/

/-- `_renew_with_anew`: read the existing history lines (stripped, non-blank)
into a set, keep only the merged entries not already present, and append them;
when nothing is new the file is not opened for writing at all.  The result is
the content of the history file after the call, paired with whether the file
was written. -/
def renewWithAnew (history : List String) (entries : List String) : List String × Bool :=
  let existing := (history.map pyStrip).filter (fun l => l ≠ "")
  let newValues := entries.filter (fun e => e ∉ existing)
  if newValues = [] then (history, false)
  else (history ++ newValues, true)

/-! ## Bruteforce status bookkeeping (`JobManager._run_bruteforce`)

The per-target loop calls `run_command`, which returns a path exactly when the
exit code is zero.  Its effect on the `successful` flag and on
`final_return_code` is therefore a function of the list of per-target exit
codes. -/

/-- One iteration of the loop body acting on `(successful, final_return_code)`:
`run_command` returned a path exactly when `code = 0`; the success branch sets
the flag and the code, the failure branch fills the code only when it is still
unset (`if final_return_code is None`). -/
def bruteforceStep (acc : Bool × Option Int) (code : Int) : Bool × Option Int :=
  if code = 0 then (true, some 0)
  else (acc.1, match acc.2 with | none => some code | some c => some c)

/-- The `(successful, final_return_code)` pair after the per-target loop of
`_run_bruteforce`, given the exit codes of the per-target invocations. -/
def bruteforceOutcome (codes : List Int) : Bool × Option Int :=
  codes.foldl bruteforceStep (false, none)

/-- The `(status, return_code)` recorded on the ToolResult after the loop. -/
def bruteforceStatus (codes : List Int) : String × Option Int :=
  if (bruteforceOutcome codes).1 then ("completed", (bruteforceOutcome codes).2)
  else ("failed", (bruteforceOutcome codes).2)

/-! ## Bruteforce temporary files (`JobManager._run_bruteforce`)

The loop writes each target into a fresh temporary file
`<phase>_bruteforce_<hex>.txt` and unlinks it in both the success and the
failure branch (a missing file is tolerated).  Only the effect on the set of
workspace file names is modelled here. -/

/-- Opening a path for writing creates the file when absent. -/
def insertFile (fs : List String) (name : String) : List String :=
  if name ∈ fs then fs else fs ++ [name]

/-- `Path.unlink` with `FileNotFoundError` swallowed: remove the name if present. -/
def removeFile (fs : List String) (name : String) : List String :=
  fs.filter (fun n => n ≠ name)

/-- One iteration of the per-target loop, restricted to its effect on the set
of workspace files: `run_command` opens the temporary file for writing, then
the success branch reads it and unlinks it, and the failure branch unlinks it
as well. -/
def bruteforceTargetStep (fs : List String) (tempName : String) (success : Bool) : List String :=
  let fs1 := insertFile fs tempName
  if success then removeFile fs1 tempName else removeFile fs1 tempName

/-- The whole per-target loop, given the fresh temporary name and the success
flag of every iteration. -/
def bruteforceLoop (fs : List String) (steps : List (String × Bool)) : List String :=
  steps.foldl (fun acc st => bruteforceTargetStep acc st.1 st.2) fs

/-! ## Bruteforce defaults and command construction
(`JobManager._apply_bruteforce_defaults`, `_run_bruteforce` lines 224-236) -/

/-- `BruteforceConfig` of `models.py`. -/
structure BruteforceConfig where
  enabled : Bool
  wordlist : Option String
  resolvers : Option String
  threads : Option Nat
  tools : List String
  deriving DecidableEq, Repr

/-- The two embedded bruteforce configurations of a `JobRequest`. -/
structure JobRequestBF where
  static_bruteforce : BruteforceConfig
  dynamic_bruteforce : BruteforceConfig
  deriving DecidableEq, Repr

def DEFAULT_STATIC_WORDLIST : String :=
  "/opt/watchmysix/wordlists/static-dns/best-dns-wordlist.txt"

def DEFAULT_DYNAMIC_WORDLIST : String :=
  "/opt/watchmysix/wordlists/dynamic-dns/words-merged.txt"

def DEFAULT_RESOLVERS : String :=
  "/opt/watchmysix/resolvers/resolvers.txt"

/-- Python truthiness of an `Optional[str]`: `None` and the empty string are
falsy, which is exactly what `if not request.static_bruteforce.wordlist` tests. -/
def optFalsy : Option String → Bool
  | none => true
  | some s => s = ""

/-- The per-phase half of `_apply_bruteforce_defaults`: when the phase is
enabled, a falsy wordlist and a falsy resolver list are replaced by the
bundled defaults; everything else is left untouched. -/
def applyPhaseDefaults (defaultWordlist defaultResolvers : String)
    (c : BruteforceConfig) : BruteforceConfig :=
  if c.enabled then
    { c with
      wordlist := if optFalsy c.wordlist then some defaultWordlist else c.wordlist
      resolvers := if optFalsy c.resolvers then some defaultResolvers else c.resolvers }
  else c

/-- `_apply_bruteforce_defaults` over the whole request. -/
def applyBruteforceDefaults (r : JobRequestBF) : JobRequestBF :=
  { static_bruteforce :=
      applyPhaseDefaults DEFAULT_STATIC_WORDLIST DEFAULT_RESOLVERS r.static_bruteforce
    dynamic_bruteforce :=
      applyPhaseDefaults DEFAULT_DYNAMIC_WORDLIST DEFAULT_RESOLVERS r.dynamic_bruteforce }

/-- `str(resolvers or "resolvers.txt")` of `_run_bruteforce`. -/
def resolverArg : Option String → String
  | none => "resolvers.txt"
  | some r => if r = "" then "resolvers.txt" else r

/-- The command built for one target inside `_run_bruteforce`.  The wordlist is
known to be set at this point because the phase returns early when it is falsy;
`getD` only serves the totality of the model. -/
def buildBruteforceCommand (phase : String) (c : BruteforceConfig) (target : String) :
    List String :=
  let wordlist := c.wordlist.getD ""
  let base :=
    if phase = "static" then ["puredns", "bruteforce", wordlist, target]
    else ["shuffledns", "-d", target, "-w", wordlist]
  let cmd1 := base ++ ["-r", resolverArg c.resolvers]
  let cmd2 := cmd1 ++ (match c.threads with
    | some t => if t = 0 then [] else ["-t", toString t]
    | none => [])
  cmd2 ++ c.tools

/-! ## Process runner (`tools.run_command`)

The subprocess is modelled by the list of lines it emits on its combined
output stream and by its exit code.  The runner creates the parent directory
of the destination, and for every line first calls the sink and then appends
the right-stripped text to the destination file; at exit it logs a completion
line and translates a non-zero code into an absent output path. -/

/-- Observable effect of one `run_command` call. -/
structure RunCommandEffect where
  dirs : List String
  fileLines : List String
  sinkLines : List String
  deriving DecidableEq, Repr

/-- The completion line logged after the process exits. -/
def completionMessage (command : List String) (code : Int) : String :=
  "Command " ++ String.intercalate " " command ++ " finished with code " ++ toString code

/-- `tools.run_command`, as a function of the emitted output lines and the exit
code.  `parentDir` is the parent directory of `destPath`; `dirs` is the set of
directories existing beforehand. -/
def runCommand (command : List String) (parentDir : String) (dirs : List String)
    (destPath : String) (outputLines : List String) (exitCode : Int) :
    RunCommandEffect × (Option String × Int) :=
  let dirs1 := if parentDir ∈ dirs then dirs else dirs ++ [parentDir]
  let texts := outputLines.map pyRstrip
  let eff : RunCommandEffect :=
    ⟨dirs1, texts, texts ++ [completionMessage command exitCode]⟩
  if exitCode = 0 then (eff, (some destPath, exitCode)) else (eff, (none, exitCode))

/-! ## Tool execution wrapper (`JobManager._run_tool`, `_execute`) -/

/-- Which execution strategy a `ToolDefinition` carries. -/
inductive ToolStrategy
  | customRunner
  | commandTemplate
  | noRunner
  deriving DecidableEq, Repr

/-- How one tool execution behaves: it returns normally, with or without an
output path, or it throws an exception carrying a message. -/
inductive ToolExec
  | ok (outputProduced : Bool)
  | raises (msg : String)
  deriving DecidableEq, Repr

/-- What `_run_tool` leaves on the ToolResult, plus whether an exception
escaped the wrapper. -/
structure ToolRunResult where
  status : String
  error : Option String
  raised : Bool
  deriving DecidableEq, Repr

/-- `_run_tool`: the result starts as `running`; a command-template tool whose
executable is absent is marked `skipped` and the wrapper returns; a definition
with no runner at all is marked `skipped`; a normal return is `completed` when
an output path exists and `failed` otherwise; any exception is caught locally
and recorded as `error` with its message. -/
def runTool : ToolStrategy → Bool → ToolExec → ToolRunResult
  | .customRunner, _, .ok produced =>
    ⟨if produced then "completed" else "failed", none, false⟩
  | .customRunner, _, .raises msg => ⟨"error", some msg, false⟩
  | .commandTemplate, false, _ => ⟨"skipped", none, false⟩
  | .commandTemplate, true, .ok produced =>
    ⟨if produced then "completed" else "failed", none, false⟩
  | .commandTemplate, true, .raises msg => ⟨"error", some msg, false⟩
  | .noRunner, _, _ => ⟨"skipped", none, false⟩

/-- The tool part of `_run_job`: every resolved tool runs through the wrapper,
so the gathered task list never throws; the body as a whole only fails on an
orchestration-level error, never on a per-tool one. -/
def runJobBody (tools : List (ToolStrategy × Bool × ToolExec)) :
    Except String (List ToolRunResult) :=
  Except.ok (tools.map (fun t => runTool t.1 t.2.1 t.2.2))

/-- `JobStatus` of `models.py`. -/
inductive JobStatus
  | queued
  | running
  | completed
  | failed
  | cancelled
  deriving DecidableEq, Repr

/-- The exception boundary of `_execute`: a body that returns transitions the
job to COMPLETED; a body that throws transitions it to FAILED with the message. -/
def executeStatus (body : Except String Unit) : JobStatus × Option String :=
  match body with
  | .ok _ => (.completed, none)
  | .error msg => (.failed, some msg)

/-! ## Probe step (`JobManager._probe_with_httpx`) -/

/-- Does a file of this name exist in the workspace. -/
def fileExistsIn (files : List TxtFile) (name : String) : Bool :=
  files.any (fun f => f.name = name)

/-- The skip decision of `_probe_with_httpx`: the probe is skipped exactly when
the merged file does not exist or the `httpx` executable is not on the PATH.
The content of the merged file is not consulted. -/
def probeSkipped (files : List TxtFile) (httpxOnPath : Bool) : Bool :=
  !(fileExistsIn files "subs.txt") || !httpxOnPath

/-! ## Certificate-transparency runner (`tools.run_crtsh`) -/

/-- Insertion into a sorted list of strings; models Python `sorted`. -/
def insertSortedStr (x : String) : List String → List String
  | [] => [x]
  | y :: ys => if x ≤ y then x :: y :: ys else y :: insertSortedStr x ys

/-- Python `sorted` on a list of strings. -/
def sortStrings (l : List String) : List String :=
  l.foldr insertSortedStr []

/-- The lines `run_crtsh` writes to `crtsh.txt`: every `name_value` field is
split on newlines, stripped, blanks dropped, collected into a set, and the set
is written sorted.  The file is always written, so the runner returns its path
and the tool result is `completed` even when no record was found. -/
def runCrtshLines (nameValues : List String) : List String :=
  let cleaned := ((nameValues.map (fun nv => nv.splitOn "\n")).flatten).map pyStrip
  let entries := cleaned.filter (fun l => l ≠ "")
  sortStrings (dedupSeen [] entries)

/-! ## Concurrency gate (`JobManager._execute`, `__init__`)

`_execute` sets the status to RUNNING, logs, and only then acquires the
semaphore sized `settings.max_concurrency` around the body.  The life of one
job task is abstracted into four phases; a scheduler step starts a task,
admits a waiting task when a permit is free, or finishes a body. -/

/-- Phases of one job task: not yet started; started (status already RUNNING)
but waiting for a semaphore permit; executing the body while holding a permit;
finished (permit released). -/
inductive JobPhase
  | queued
  | labeled
  | body
  | done
  deriving DecidableEq, Repr

/-- The status label visible on the job in each phase: `_execute` sets RUNNING
at task start, before the semaphore is acquired. -/
def phaseStatus : JobPhase → JobStatus
  | .queued => .queued
  | .labeled => .running
  | .body => .running
  | .done => .completed

/-- Number of job bodies currently holding a permit. -/
def bodyCount (s : List JobPhase) : Nat :=
  s.countP (fun p => p == .body)

/-- One scheduler step under a gate of `N` permits: a queued task starts (and
is labeled RUNNING), a labeled task is admitted when fewer than `N` bodies are
running, or a body finishes and releases its permit. -/
inductive GateStep (N : Nat) : List JobPhase → List JobPhase → Prop
  | start (s : List JobPhase) (i : Nat) (h : s[i]? = some .queued) :
      GateStep N s (s.set i .labeled)
  | acquire (s : List JobPhase) (i : Nat) (h : s[i]? = some .labeled)
      (hN : bodyCount s < N) : GateStep N s (s.set i .body)
  | finish (s : List JobPhase) (i : Nat) (h : s[i]? = some .body) :
      GateStep N s (s.set i .done)

/-- States reachable from an initial state through gate steps. -/
inductive GateReachable (N : Nat) (init : List JobPhase) : List JobPhase → Prop
  | refl : GateReachable N init init
  | step (s t : List JobPhase) (hs : GateReachable N init s)
      (hstep : GateStep N s t) : GateReachable N init t

/-! ## Log hub (`JobManager._log`, `stream_logs`)

The ring buffer is a `deque` with a fixed `maxlen`; appending beyond the
capacity evicts the oldest line.  `stream_logs` registers an unbounded
`asyncio.Queue` (so `put_nowait` never drops for it), replays the buffer, and
then forwards queued lines. -/

/-- `deque(maxlen := cap).append`: drop from the left beyond the capacity. -/
def pushBounded (cap : Nat) (buf : List String) (line : String) : List String :=
  let b := buf ++ [line]
  if cap < b.length then b.drop (b.length - cap) else b

/-- The per-job log hub: the ring buffer and the registered subscriber queues. -/
structure Hub where
  buffer : List String
  queues : List (List String)
  deriving DecidableEq, Repr

/-- `_log`: append the line to the buffer and offer it to every subscriber
queue.  The queues registered by `stream_logs` are unbounded, so the
`QueueFull` branch never fires for them. -/
def logLine (cap : Nat) (h : Hub) (line : String) : Hub :=
  { buffer := pushBounded cap h.buffer line
    queues := h.queues.map (fun q => q ++ [line]) }

/-- The subscription step of `stream_logs`: register a fresh empty queue and
replay the current buffer contents. -/
def attachSubscriber (h : Hub) : Hub × List String :=
  ({ h with queues := h.queues ++ [[]] }, h.buffer)

/-- Log a list of lines in order. -/
def logAll (cap : Nat) (h : Hub) (lines : List String) : Hub :=
  lines.foldl (logLine cap) h

/-- The full trace a `stream_logs` consumer observes when it attaches after
`pre` was logged and `post` is logged afterwards: the buffer replay followed by
the lines delivered through its queue. -/
def subscriberTrace (cap : Nat) (pre post : List String) : List String :=
  let h1 := logAll cap ⟨[], []⟩ pre
  let h2 := attachSubscriber h1
  let h3 := logAll cap h2.1 post
  h2.2 ++ (h3.queues.getLast?.getD [])

/-! ## Helper lemmas on the merge machinery -/

theorem dedupSeen_append (l1 l2 : List String) : ∀ seen,
    dedupSeen seen (l1 ++ l2) = dedupSeen seen l1 ++ dedupSeen (threadSeen seen l1) l2 := by
  induction l1 with
  | nil => intro seen; simp [dedupSeen, threadSeen]
  | cons x xs ih =>
    intro seen
    by_cases hx : x ∈ seen
    · simp [dedupSeen, threadSeen, hx, ih]
    · simp [dedupSeen, threadSeen, hx, ih]

theorem threadSeen_append (l1 l2 : List String) : ∀ seen,
    threadSeen seen (l1 ++ l2) = threadSeen (threadSeen seen l1) l2 := by
  induction l1 with
  | nil => intro seen; simp [threadSeen]
  | cons x xs ih =>
    intro seen
    by_cases hx : x ∈ seen
    · simp [threadSeen, hx, ih]
    · simp [threadSeen, hx, ih]

theorem mem_dedupSeen (a : String) : ∀ (l seen : List String),
    a ∈ dedupSeen seen l ↔ a ∈ l ∧ a ∉ seen := by
  intro l
  induction l with
  | nil => intro seen; simp [dedupSeen]
  | cons x xs ih =>
    intro seen
    by_cases hx : x ∈ seen
    · rw [dedupSeen, if_pos hx, ih]
      constructor
      · rintro ⟨h1, h2⟩
        exact ⟨List.mem_cons_of_mem _ h1, h2⟩
      · rintro ⟨h1, h2⟩
        rcases List.mem_cons.mp h1 with rfl | h1
        · exact absurd hx h2
        · exact ⟨h1, h2⟩
    · rw [dedupSeen, if_neg hx]
      simp only [List.mem_cons, ih]
      constructor
      · rintro (rfl | ⟨h1, h2⟩)
        · exact ⟨Or.inl rfl, hx⟩
        · tauto
      · rintro ⟨rfl | h1, h2⟩
        · exact Or.inl rfl
        · rcases eq_or_ne a x with rfl | hax
          · exact Or.inl rfl
          · tauto

theorem nodup_dedupSeen : ∀ (l seen : List String), (dedupSeen seen l).Nodup := by
  intro l
  induction l with
  | nil => intro seen; simp [dedupSeen]
  | cons x xs ih =>
    intro seen
    by_cases hx : x ∈ seen
    · simpa [dedupSeen, hx] using ih seen
    · simp only [dedupSeen, if_neg hx, List.nodup_cons]
      refine ⟨fun hc => ?_, ih (x :: seen)⟩
      exact ((mem_dedupSeen x xs (x :: seen)).mp hc).2 (List.mem_cons_self x seen)

theorem dedupSeen_sublist : ∀ (l seen : List String), List.Sublist (dedupSeen seen l) l := by
  intro l
  induction l with
  | nil => intro seen; simp [dedupSeen]
  | cons x xs ih =>
    intro seen
    by_cases hx : x ∈ seen
    · simpa [dedupSeen, hx] using (ih seen).cons x
    · simpa [dedupSeen, hx] using (ih (x :: seen)).cons₂ x

theorem dedupSeen_eq_firstDedup : ∀ (l seen : List String),
    dedupSeen seen l = firstDedup (l.filter (fun y => y ∉ seen)) := by
  intro l
  induction l with
  | nil => intro seen; simp [dedupSeen, firstDedup]
  | cons x xs ih =>
    intro seen
    by_cases hx : x ∈ seen
    · simp only [dedupSeen, if_pos hx]
      rw [ih seen]
      congr 1
      simp [List.filter_cons, hx]
    · simp only [dedupSeen, if_neg hx]
      rw [ih (x :: seen)]
      have hfil : xs.filter (fun y => y ∉ x :: seen)
          = (xs.filter (fun y => y ∉ seen)).filter (fun y => y ≠ x) := by
        rw [List.filter_filter]
        apply List.filter_congr
        intro a _
        by_cases hax : a = x
        · simp [hax, hx]
        · by_cases has : a ∈ seen <;> simp [hax, has]
      rw [hfil]
      have hcons : (x :: xs).filter (fun y => y ∉ seen)
          = x :: xs.filter (fun y => y ∉ seen) := by
        simp [List.filter_cons, hx]
      rw [hcons, firstDedup]

theorem dedupSeen_nil_eq_firstDedup (l : List String) :
    dedupSeen [] l = firstDedup l := by
  rw [dedupSeen_eq_firstDedup]
  congr 1
  simp

theorem normalizeLines_cons (line : String) (rest : List String) :
    normalizeLines (line :: rest) =
      (if pyStrip line = "" then [] else [pyStrip line]) ++ normalizeLines rest := by
  by_cases h : pyStrip line = "" <;> simp [normalizeLines, List.filter_cons, h]

theorem mergeLinesAux_cons_blank (seen out : List String) (line : String)
    (rest : List String) (h : pyStrip line = "") :
    mergeLinesAux seen out (line :: rest) = mergeLinesAux seen out rest := by
  simp [mergeLinesAux, h]

theorem mergeLinesAux_cons_seen (seen out : List String) (line : String)
    (rest : List String) (h1 : pyStrip line ≠ "") (h2 : pyStrip line ∈ seen) :
    mergeLinesAux seen out (line :: rest) = mergeLinesAux seen out rest := by
  simp [mergeLinesAux, h1, h2]

theorem mergeLinesAux_cons_new (seen out : List String) (line : String)
    (rest : List String) (h1 : pyStrip line ≠ "") (h2 : pyStrip line ∉ seen) :
    mergeLinesAux seen out (line :: rest) =
      mergeLinesAux (pyStrip line :: seen) (out ++ [pyStrip line]) rest := by
  simp [mergeLinesAux, h1, h2]

theorem mergeLinesAux_eq (lines : List String) : ∀ seen out,
    mergeLinesAux seen out lines =
      (threadSeen seen (normalizeLines lines),
       out ++ dedupSeen seen (normalizeLines lines)) := by
  induction lines with
  | nil => intro seen out; simp [mergeLinesAux, normalizeLines, threadSeen, dedupSeen]
  | cons line rest ih =>
    intro seen out
    by_cases hblank : pyStrip line = ""
    · rw [mergeLinesAux_cons_blank _ _ _ _ hblank, ih, normalizeLines_cons]
      simp [hblank]
    · by_cases hseen : pyStrip line ∈ seen
      · rw [mergeLinesAux_cons_seen _ _ _ _ hblank hseen, ih, normalizeLines_cons,
          if_neg hblank]
        simp [threadSeen, dedupSeen, hseen]
      · rw [mergeLinesAux_cons_new _ _ _ _ hblank hseen, ih, normalizeLines_cons,
          if_neg hblank]
        simp [threadSeen, dedupSeen, hseen]

theorem mergeInputLines_cons (f : TxtFile) (rest : List TxtFile) :
    mergeInputLines (f :: rest) =
      (if f.name = "subs.txt" then [] else normalizeLines f.lines) ++ mergeInputLines rest := by
  by_cases h : f.name = "subs.txt" <;> simp [mergeInputLines, List.filter_cons, h]

theorem mergeFold_eq (files : List TxtFile) : ∀ seen out,
    files.foldl
        (fun acc f =>
          if f.name = "subs.txt" then acc
          else mergeLinesAux acc.1 acc.2 f.lines)
        (seen, out) =
      (threadSeen seen (mergeInputLines files),
       out ++ dedupSeen seen (mergeInputLines files)) := by
  induction files with
  | nil => intro seen out; simp [mergeInputLines, threadSeen, dedupSeen]
  | cons f rest ih =>
    intro seen out
    by_cases h : f.name = "subs.txt"
    · rw [List.foldl_cons, if_pos h, ih, mergeInputLines_cons, if_pos h]
      simp
    · rw [List.foldl_cons, if_neg h, mergeLinesAux_eq, ih, mergeInputLines_cons, if_neg h,
        threadSeen_append, dedupSeen_append]
      simp

theorem mergeArtifacts_eq_dedupSeen (files : List TxtFile) :
    mergeArtifacts files = dedupSeen [] (mergeInputLines files) := by
  unfold mergeArtifacts
  rw [mergeFold_eq]
  simp

/-- C1: the merge pass writes into `subs.txt` exactly the stripped, non-blank
lines of all `*.txt` files of the workspace (the canonical target excluded),
each distinct line exactly once, in the order in which files and lines were
first encountered; shared lines of overlapping files therefore appear once. -/
theorem merge_dedups_in_first_encounter_order (files : List TxtFile) :
    mergeArtifacts files = firstDedup (mergeInputLines files) ∧
    (mergeArtifacts files).Nodup ∧
    (∀ l, l ∈ mergeArtifacts files ↔ l ∈ mergeInputLines files) ∧
    List.Sublist (mergeArtifacts files) (mergeInputLines files) := by
  rw [mergeArtifacts_eq_dedupSeen]
  refine ⟨dedupSeen_nil_eq_firstDedup _, nodup_dedupSeen _ _, fun l => ?_,
    dedupSeen_sublist _ _⟩
  rw [mem_dedupSeen]
  simp

/-! ## C2: history monotonicity -/

/-- C2: for a history file whose lines are stripped, non-blank and free of
duplicates, and a merged set of entries, the update appends exactly the
entries not already present and rewrites nothing; the result is duplicate
free, its membership is the union, and when every entry is already present
nothing is appended and the file is not written. -/
theorem history_update_monotone (history entries : List String)
    (hhist : ∀ l ∈ history, pyStrip l = l ∧ l ≠ "")
    (hnodupH : history.Nodup) (hnodupE : entries.Nodup) :
    (renewWithAnew history entries).1
        = history ++ entries.filter (fun e => e ∉ history) ∧
    (renewWithAnew history entries).1.Nodup ∧
    (∀ l, l ∈ (renewWithAnew history entries).1 ↔ l ∈ history ∨ l ∈ entries) ∧
    ((∀ e ∈ entries, e ∈ history) → renewWithAnew history entries = (history, false)) := by
  have hmap : history.map pyStrip = history := by
    have h1 : history.map pyStrip = history.map id :=
      List.map_congr_left (fun l hl => (hhist l hl).1)
    simpa using h1
  have hexist : (history.map pyStrip).filter (fun l => l ≠ "") = history := by
    rw [hmap]
    exact List.filter_eq_self.mpr (fun a ha => by simpa using (hhist a ha).2)
  have hfst : (renewWithAnew history entries).1
      = history ++ entries.filter (fun e => e ∉ history) := by
    simp only [renewWithAnew, hexist]
    split
    · rename_i h
      rw [h, List.append_nil]
    · rfl
  refine ⟨hfst, ?_, ?_, ?_⟩
  · rw [hfst, List.nodup_append]
    refine ⟨hnodupH, hnodupE.filter _, ?_⟩
    intro a ha hb
    exact (by simpa using (List.mem_filter.mp hb).2 : a ∉ history) ha
  · intro l
    rw [hfst]
    simp only [List.mem_append, List.mem_filter, decide_not]
    constructor
    · rintro (h | ⟨h, _⟩)
      · exact Or.inl h
      · exact Or.inr h
    · rintro (h | h)
      · exact Or.inl h
      · by_cases hl : l ∈ history
        · exact Or.inl hl
        · exact Or.inr ⟨h, by simpa using hl⟩
  · intro hsub
    have hfil : entries.filter (fun e => e ∉ history) = [] := by
      rw [List.filter_eq_nil_iff]
      intro a ha
      simpa using hsub a ha
    simp only [renewWithAnew, hexist]
    rw [hfil]
    simp

/-- Witness for C2 at a concrete input: history `a.com`, merged entries
`a.com` and `b.com`; exactly the new line is appended after the old content. -/
theorem history_update_monotone_witness :
    (renewWithAnew ["a.com"] ["a.com", "b.com"]).1
      = ["a.com"] ++ (["a.com", "b.com"].filter (fun e => e ∉ (["a.com"] : List String))) :=
  (history_update_monotone ["a.com"] ["a.com", "b.com"]
    (by decide) (by decide) (by decide)).1

/-! ## C4: bruteforce phase status and return code -/

theorem bruteforceStep_foldl_stable (l : List Int) :
    l.foldl bruteforceStep (true, some 0) = (true, some 0) := by
  induction l with
  | nil => rfl
  | cons c rest ih =>
    by_cases hc : c = 0 <;> simp [bruteforceStep, hc, ih]

theorem bruteforceStep_foldl_all_ne (l : List Int) : ∀ (b : Bool) (c0 : Int),
    (∀ c ∈ l, c ≠ 0) →
    l.foldl bruteforceStep (b, some c0) = (b, some c0) := by
  induction l with
  | nil => intro b c0 _; rfl
  | cons c rest ih =>
    intro b c0 h
    have hc : c ≠ 0 := h c (List.mem_cons_self c rest)
    simp only [List.foldl_cons, bruteforceStep, if_neg hc]
    exact ih b c0 (fun x hx => h x (List.mem_cons_of_mem c hx))

theorem bruteforceStep_foldl_of_mem_zero (codes : List Int) : ∀ (b : Bool) (oc : Option Int),
    (0 : Int) ∈ codes →
    codes.foldl bruteforceStep (b, oc) = (true, some 0) := by
  induction codes with
  | nil => intro b oc h; exact absurd h (List.not_mem_nil 0)
  | cons c rest ih =>
    intro b oc h
    by_cases hc : c = 0
    · simp only [List.foldl_cons, bruteforceStep, if_pos hc]
      exact bruteforceStep_foldl_stable rest
    · have hr : (0 : Int) ∈ rest := by
        rcases List.mem_cons.mp h with h0 | h0
        · exact absurd h0.symm hc
        · exact h0
      simp only [List.foldl_cons, bruteforceStep, if_neg hc]
      exact ih _ _ hr

/-- C4 counterexample: two targets fail with codes 2 and then 3; the recorded
return code is 2, the FIRST observed non-zero code, while the claim demands the
last observed non-zero code, which is 3. -/
theorem bruteforce_last_code_counterexample :
    bruteforceStatus [2, 3] = ("failed", some 2) ∧
    (List.filter (fun c => c ≠ 0) [(2 : Int), 3]).getLast? = some 3 ∧
    (some (2 : Int)) ≠ some 3 := by
  refine ⟨?_, by decide, by decide⟩
  rfl

/-- C4 amended: if at least one per-target command exits with code zero, the
phase ToolResult is `completed` with return code 0; if no target succeeds, it
is `failed` with the FIRST observed non-zero exit code (the first element of
the code list, all codes being non-zero). -/
theorem bruteforce_status_amended (codes : List Int) :
    ((0 : Int) ∈ codes → bruteforceStatus codes = ("completed", some 0)) ∧
    ((0 : Int) ∉ codes → bruteforceStatus codes = ("failed", codes.head?)) := by
  constructor
  · intro h
    have hout : bruteforceOutcome codes = (true, some 0) :=
      bruteforceStep_foldl_of_mem_zero codes false none h
    simp [bruteforceStatus, hout]
  · intro h
    have hall : ∀ c ∈ codes, c ≠ 0 := by
      intro c hc hc0
      exact h (hc0 ▸ hc)
    cases codes with
    | nil => rfl
    | cons c rest =>
      have hc : c ≠ 0 := hall c (List.mem_cons_self c rest)
      have hout : bruteforceOutcome (c :: rest) = (false, some c) := by
        unfold bruteforceOutcome
        simp only [List.foldl_cons, bruteforceStep, if_neg hc]
        exact bruteforceStep_foldl_all_ne rest false c
          (fun x hx => hall x (List.mem_cons_of_mem c hx))
      simp [bruteforceStatus, hout]

/-- Witness for C4 amended: one successful target yields `completed` with
code 0; two failing targets yield `failed` with the first code. -/
theorem bruteforce_status_amended_witness :
    bruteforceStatus [5, 0] = ("completed", some 0) ∧
    bruteforceStatus [7, 9] = ("failed", some 7) := by
  constructor
  · exact (bruteforce_status_amended [5, 0]).1 (by decide)
  · have h := (bruteforce_status_amended [7, 9]).2 (by decide)
    simpa using h

/-! ## C3: the crtsh-only empty scenario -/

/-- C3 counterexample: in the scenario where the only tool is the
certificate-transparency runner and it finds no records, `crtsh.txt` and the
merged `subs.txt` are both empty, but the merged file EXISTS after the merge
pass, so with `httpx` on the PATH the probe step is NOT skipped: the skip
condition of `_probe_with_httpx` tests existence and executable presence, never
emptiness. -/
theorem crtsh_scenario_probe_not_skipped :
    runCrtshLines [] = [] ∧
    mergeArtifacts [⟨"crtsh.txt", []⟩] = [] ∧
    fileExistsIn (mergeWorkspace [⟨"crtsh.txt", []⟩]) "subs.txt" = true ∧
    probeSkipped (mergeWorkspace [⟨"crtsh.txt", []⟩]) true = false := by
  refine ⟨rfl, rfl, ?_, ?_⟩ <;> decide

/-- C3 amended: with only the certificate-transparency runner selected and no
records found, `crtsh.txt` is empty, `subs.txt` is empty, the history file is
unchanged and not written, and the job reaches COMPLETED; the merged file
exists after the merge, so the probe step is skipped exactly when the `httpx`
executable is absent, not because the merged file is empty. -/
theorem crtsh_scenario_amended (httpxOnPath : Bool) :
    runCrtshLines [] = [] ∧
    mergeArtifacts [⟨"crtsh.txt", runCrtshLines []⟩] = [] ∧
    renewWithAnew [] (mergeArtifacts [⟨"crtsh.txt", runCrtshLines []⟩]) = ([], false) ∧
    probeSkipped (mergeWorkspace [⟨"crtsh.txt", runCrtshLines []⟩]) httpxOnPath
      = !httpxOnPath ∧
    executeStatus ((runJobBody [(ToolStrategy.customRunner, true, ToolExec.ok true)]).map
      (fun _ => ())) = (JobStatus.completed, none) := by
  cases httpxOnPath <;> exact ⟨rfl, rfl, rfl, by decide, rfl⟩

/-! ## C5: per-tool failures never fail the job -/

/-- C5: a command-template tool whose executable is absent is recorded as
`skipped`; an exception during a custom runner or an executed command is
recorded as `error` with its message; no execution path lets an exception
escape the wrapper; and a job whose body runs any mix of such tools reaches
COMPLETED when no orchestration-level error occurs. -/
theorem per_tool_failures_contained (strategy : ToolStrategy) (onPath : Bool)
    (ex : ToolExec) (msg : String)
    (tools : List (ToolStrategy × Bool × ToolExec)) :
    (runTool .commandTemplate false ex).status = "skipped" ∧
    (runTool .customRunner onPath (.raises msg)).status = "error" ∧
    (runTool .customRunner onPath (.raises msg)).error = some msg ∧
    (runTool .commandTemplate true (.raises msg)).status = "error" ∧
    (runTool .commandTemplate true (.raises msg)).error = some msg ∧
    (runTool strategy onPath ex).raised = false ∧
    executeStatus ((runJobBody tools).map (fun _ => ())) = (.completed, none) := by
    refine ⟨rfl, rfl, rfl, rfl, rfl, ?_, rfl⟩
    cases strategy <;> cases onPath <;> cases ex <;> rfl

/-! ## C6: the process runner contract -/

/-- C6: `run_command` creates the parent directory of the destination when it
is absent, passes every right-stripped output line to the sink and appends it
to the destination file, logs a completion line, and returns the destination
path paired with the exit code when the code is zero and `(none, code)` for
every non-zero code, independently of the file content. -/
theorem run_command_contract (command : List String) (parentDir : String)
    (dirs : List String) (destPath : String) (outputLines : List String)
    (exitCode : Int) :
    parentDir ∈ (runCommand command parentDir dirs destPath outputLines exitCode).1.dirs ∧
    (runCommand command parentDir dirs destPath outputLines exitCode).1.fileLines
      = outputLines.map pyRstrip ∧
    (runCommand command parentDir dirs destPath outputLines exitCode).1.sinkLines
      = outputLines.map pyRstrip ++ [completionMessage command exitCode] ∧
    (runCommand command parentDir dirs destPath outputLines exitCode).2
      = (if exitCode = 0 then (some destPath, exitCode) else (none, exitCode)) := by
  unfold runCommand
  refine ⟨?_, ?_, ?_, ?_⟩
  · by_cases hp : parentDir ∈ dirs <;> by_cases h0 : exitCode = 0 <;> simp [hp, h0]
  · by_cases h0 : exitCode = 0 <;> simp [h0]
  · by_cases h0 : exitCode = 0 <;> simp [h0]
  · by_cases h0 : exitCode = 0 <;> simp [h0]

/-! ## C7: the concurrency gate bounds running bodies -/

theorem countP_set_of_getElem (p : JobPhase → Bool) :
    ∀ (s : List JobPhase) (i : Nat) (a b : JobPhase), s[i]? = some a →
      (s.set i b).countP p + (if p a then 1 else 0)
        = s.countP p + (if p b then 1 else 0) := by
  intro s
  induction s with
  | nil => intro i a b h; simp at h
  | cons x xs ih =>
    intro i a b h
    cases i with
    | zero =>
      simp only [List.getElem?_cons_zero, Option.some.injEq] at h
      subst h
      simp only [List.set_cons_zero, List.countP_cons]
      split_ifs <;> omega
    | succ n =>
      simp only [List.getElem?_cons_succ] at h
      simp only [List.set_cons_succ, List.countP_cons]
      have h2 := ih n a b h
      split_ifs at h2 ⊢ <;> omega

theorem gate_bodyCount_le (N k : Nat) (s : List JobPhase)
    (h : GateReachable N (List.replicate k .queued) s) : bodyCount s ≤ N := by
  induction h with
  | refl =>
    have hz : bodyCount (List.replicate k JobPhase.queued) = 0 := by
      unfold bodyCount
      rw [List.countP_eq_zero]
      intro a ha
      rw [List.eq_of_mem_replicate ha]
      decide
    omega
  | step s t hs hstep ih =>
    cases hstep with
    | start i h1 =>
      have hc := countP_set_of_getElem (fun p => p == .body) s i .queued .labeled h1
      unfold bodyCount at *
      simp at hc
      omega
    | acquire i h1 hN =>
      have hc := countP_set_of_getElem (fun p => p == .body) s i .labeled .body h1
      unfold bodyCount at *
      simp at hc
      omega
    | finish i h1 =>
      have hc := countP_set_of_getElem (fun p => p == .body) s i .body .done h1
      unfold bodyCount at *
      simp at hc
      omega

/-- C7: with a gate of `N` permits, in every state reachable from `k` queued
jobs, at most `N` job bodies hold a permit; a job whose task has started but
still waits for a permit is already labelled RUNNING; and when the gate is
saturated, no scheduler step can move a waiting job into its body — it can
only start executing after some body finishes and releases its permit. -/
theorem concurrency_gate_bound (N k : Nat) (s : List JobPhase)
    (h : GateReachable N (List.replicate k JobPhase.queued) s) :
    bodyCount s ≤ N ∧
    (∀ (i : Nat), s[i]? = some JobPhase.labeled → (s[i]?).map phaseStatus
      = some JobStatus.running) ∧
    (∀ (t : List JobPhase) (i : Nat), GateStep N s t → bodyCount s = N →
      s[i]? = some JobPhase.labeled → t[i]? ≠ some JobPhase.body) := by
  refine ⟨gate_bodyCount_le N k s h, ?_, ?_⟩
  · intro i hi
    rw [hi]
    rfl
  · intro t i hstep hsat hlab
    cases hstep with
    | start j hj =>
      rcases eq_or_ne j i with rfl | hne
      · rw [List.getElem?_set]
        by_cases hl : j < s.length <;> simp [hl]
      · rw [List.getElem?_set_ne hne, hlab]
        simp
    | acquire j hj hN =>
      omega
    | finish j hj =>
      rcases eq_or_ne j i with rfl | hne
      · rw [hj] at hlab
        simp at hlab
      · rw [List.getElem?_set_ne hne, hlab]
        simp

/-- Witness for C7 at a concrete reachable state: a gate of one permit, two
submitted jobs, the first task started and waiting for admission. -/
theorem concurrency_gate_bound_witness :
    bodyCount [JobPhase.labeled, JobPhase.queued] ≤ 1 :=
  (concurrency_gate_bound 1 2 [JobPhase.labeled, JobPhase.queued]
    (GateReachable.step _ _ GateReachable.refl
      (GateStep.start (List.replicate 2 JobPhase.queued) 0 rfl))).1

/-! ## C8: log replay completeness -/

theorem logAll_buffer (cap : Nat) (lines : List String) : ∀ (h : Hub),
    (logAll cap h lines).buffer = lines.foldl (pushBounded cap) h.buffer := by
  induction lines with
  | nil => intro h; rfl
  | cons x rest ih =>
    intro h
    simp only [logAll, List.foldl_cons] at *
    exact ih (logLine cap h x)

theorem logAll_queues (cap : Nat) (lines : List String) : ∀ (h : Hub),
    (logAll cap h lines).queues = h.queues.map (fun q => q ++ lines) := by
  induction lines with
  | nil => intro h; simp [logAll]
  | cons x rest ih =>
    intro h
    simp only [logAll, List.foldl_cons] at *
    rw [ih (logLine cap h x)]
    show (h.queues.map (fun q => q ++ [x])).map (fun q => q ++ rest)
      = h.queues.map (fun q => q ++ (x :: rest))
    rw [List.map_map]
    apply List.map_congr_left
    intro q _
    simp

theorem foldl_pushBounded_no_evict (cap : Nat) : ∀ (lines b : List String),
    b.length + lines.length ≤ cap →
    lines.foldl (pushBounded cap) b = b ++ lines := by
  intro lines
  induction lines with
  | nil => intro b h; simp
  | cons x rest ih =>
    intro b h
    simp only [List.length_cons] at h
    have hx : pushBounded cap b x = b ++ [x] := by
      simp only [pushBounded]
      split
      · rename_i hcond
        exfalso
        simp only [List.length_append, List.length_cons, List.length_nil] at hcond
        omega
      · rfl
    simp only [List.foldl_cons, hx]
    rw [ih (b ++ [x])]
    · simp
    · simp only [List.length_append, List.length_cons, List.length_nil]
      omega

/-- C8: a `stream_logs` subscriber attaching after `M` lines were logged
(`M` at most the buffer capacity) receives exactly those `M` lines, in their
emission order, before any line produced after it attached.  Its own queue is
an unbounded `asyncio.Queue`, so no post-attach line is dropped for it. -/
theorem log_replay_complete (cap : Nat) (pre post : List String)
    (h : pre.length ≤ cap) :
    subscriberTrace cap pre post = pre ++ post := by
  have hbuf : (logAll cap ⟨[], []⟩ pre).buffer = pre := by
    rw [logAll_buffer]
    exact foldl_pushBounded_no_evict cap pre [] (by simpa using h)
  have hq1 : (logAll cap ⟨[], []⟩ pre).queues = [] := by
    rw [logAll_queues]
    rfl
  simp only [subscriberTrace, attachSubscriber]
  rw [logAll_queues, hbuf, hq1]
  simp

/-- Witness for C8: capacity 3, two lines logged before the attach, one after;
the subscriber sees them all in order, earlier lines first. -/
theorem log_replay_complete_witness :
    subscriberTrace 3 ["a", "b"] ["c"] = ["a", "b"] ++ ["c"] :=
  log_replay_complete 3 ["a", "b"] ["c"] (by decide)

/-! ## C9: bruteforce default injection -/

/-- C9: enabling a bruteforce phase with no explicit wordlist and no explicit
resolver list makes the default-injection step store the bundled default paths
in the phase configuration before any command is built, and the command built
for that phase contains both default paths; an explicitly supplied non-empty
value is left unchanged by the injection. -/
theorem bruteforce_default_injection (r : JobRequestBF) (target : String) :
    ((r.static_bruteforce.enabled = true ∧ r.static_bruteforce.wordlist = none ∧
        r.static_bruteforce.resolvers = none) →
      ((applyBruteforceDefaults r).static_bruteforce.wordlist
          = some DEFAULT_STATIC_WORDLIST ∧
       (applyBruteforceDefaults r).static_bruteforce.resolvers
          = some DEFAULT_RESOLVERS ∧
       DEFAULT_STATIC_WORDLIST ∈ buildBruteforceCommand "static"
         ((applyBruteforceDefaults r).static_bruteforce) target ∧
       DEFAULT_RESOLVERS ∈ buildBruteforceCommand "static"
         ((applyBruteforceDefaults r).static_bruteforce) target)) ∧
    ((r.dynamic_bruteforce.enabled = true ∧ r.dynamic_bruteforce.wordlist = none ∧
        r.dynamic_bruteforce.resolvers = none) →
      ((applyBruteforceDefaults r).dynamic_bruteforce.wordlist
          = some DEFAULT_DYNAMIC_WORDLIST ∧
       (applyBruteforceDefaults r).dynamic_bruteforce.resolvers
          = some DEFAULT_RESOLVERS ∧
       DEFAULT_DYNAMIC_WORDLIST ∈ buildBruteforceCommand "dynamic"
         ((applyBruteforceDefaults r).dynamic_bruteforce) target ∧
       DEFAULT_RESOLVERS ∈ buildBruteforceCommand "dynamic"
         ((applyBruteforceDefaults r).dynamic_bruteforce) target)) ∧
    (∀ w, w ≠ "" → r.static_bruteforce.wordlist = some w →
      (applyBruteforceDefaults r).static_bruteforce.wordlist = some w) ∧
    (∀ w, w ≠ "" → r.static_bruteforce.resolvers = some w →
      (applyBruteforceDefaults r).static_bruteforce.resolvers = some w) ∧
    (∀ w, w ≠ "" → r.dynamic_bruteforce.wordlist = some w →
      (applyBruteforceDefaults r).dynamic_bruteforce.wordlist = some w) ∧
    (∀ w, w ≠ "" → r.dynamic_bruteforce.resolvers = some w →
      (applyBruteforceDefaults r).dynamic_bruteforce.resolvers = some w) := by
  refine ⟨?_, ?_, ?_, ?_, ?_, ?_⟩
  · rintro ⟨he, hw, hr⟩
    refine ⟨?_, ?_, ?_, ?_⟩ <;>
      simp [applyBruteforceDefaults, applyPhaseDefaults, optFalsy, he, hw, hr,
        buildBruteforceCommand, resolverArg, DEFAULT_RESOLVERS]
  · rintro ⟨he, hw, hr⟩
    refine ⟨?_, ?_, ?_, ?_⟩ <;>
      simp [applyBruteforceDefaults, applyPhaseDefaults, optFalsy, he, hw, hr,
        buildBruteforceCommand, resolverArg, DEFAULT_RESOLVERS]
  · intro w hw hsw
    by_cases he : r.static_bruteforce.enabled <;>
      simp [applyBruteforceDefaults, applyPhaseDefaults, optFalsy, he, hsw, hw]
  · intro w hw hsw
    by_cases he : r.static_bruteforce.enabled <;>
      simp [applyBruteforceDefaults, applyPhaseDefaults, optFalsy, he, hsw, hw]
  · intro w hw hsw
    by_cases he : r.dynamic_bruteforce.enabled <;>
      simp [applyBruteforceDefaults, applyPhaseDefaults, optFalsy, he, hsw, hw]
  · intro w hw hsw
    by_cases he : r.dynamic_bruteforce.enabled <;>
      simp [applyBruteforceDefaults, applyPhaseDefaults, optFalsy, he, hsw, hw]

/-- Witness for C9 at a concrete request: static phase enabled with neither a
wordlist nor resolvers; the defaults are injected and appear in the command. -/
theorem bruteforce_default_injection_witness :
    (applyBruteforceDefaults
        ⟨⟨true, none, none, none, []⟩, ⟨false, none, none, none, []⟩⟩).static_bruteforce.wordlist
      = some DEFAULT_STATIC_WORDLIST ∧
    (applyBruteforceDefaults
        ⟨⟨true, none, none, none, []⟩, ⟨false, none, none, none, []⟩⟩).static_bruteforce.resolvers
      = some DEFAULT_RESOLVERS ∧
    DEFAULT_STATIC_WORDLIST ∈ buildBruteforceCommand "static"
      ((applyBruteforceDefaults
        ⟨⟨true, none, none, none, []⟩, ⟨false, none, none, none, []⟩⟩).static_bruteforce)
      "example.com" ∧
    DEFAULT_RESOLVERS ∈ buildBruteforceCommand "static"
      ((applyBruteforceDefaults
        ⟨⟨true, none, none, none, []⟩, ⟨false, none, none, none, []⟩⟩).static_bruteforce)
      "example.com" :=
  (bruteforce_default_injection
    ⟨⟨true, none, none, none, []⟩, ⟨false, none, none, none, []⟩⟩ "example.com").1
    ⟨rfl, rfl, rfl⟩

/-! ## C10: temporary bruteforce files are deleted -/

theorem bruteforceTargetStep_subset (fs : List String) (t : String) (s : Bool) :
    ∀ n ∈ bruteforceTargetStep fs t s, n ∈ fs := by
  intro n hn
  have hn2 : n ∈ removeFile (insertFile fs t) t := by
    cases s <;> simpa [bruteforceTargetStep] using hn
  rcases List.mem_filter.mp hn2 with ⟨hmem, hne⟩
  have hne2 : n ≠ t := by simpa using hne
  unfold insertFile at hmem
  by_cases ht : t ∈ fs
  · simpa [ht] using hmem
  · rw [if_neg ht] at hmem
    rcases List.mem_append.mp hmem with hcase | hcase
    · exact hcase
    · exact absurd (List.mem_singleton.mp hcase) hne2

theorem bruteforceTargetStep_not_mem (fs : List String) (t : String) (s : Bool) :
    t ∉ bruteforceTargetStep fs t s := by
  intro hc
  have hn2 : t ∈ removeFile (insertFile fs t) t := by
    cases s <;> simpa [bruteforceTargetStep] using hc
  have := (List.mem_filter.mp hn2).2
  simp at this

theorem bruteforceLoop_subset (steps : List (String × Bool)) : ∀ (fs : List String),
    ∀ n ∈ bruteforceLoop fs steps, n ∈ fs := by
  induction steps with
  | nil => intro fs n hn; simpa [bruteforceLoop] using hn
  | cons p rest ih =>
    intro fs n hn
    have hred : bruteforceLoop fs (p :: rest)
        = bruteforceLoop (bruteforceTargetStep fs p.1 p.2) rest := rfl
    rw [hred] at hn
    exact bruteforceTargetStep_subset fs p.1 p.2 n (ih _ n hn)

theorem bruteforceLoop_removes_temps (steps : List (String × Bool)) : ∀ (fs : List String),
    ∀ p ∈ steps, p.1 ∉ bruteforceLoop fs steps := by
  induction steps with
  | nil => intro fs p hp; exact absurd hp (List.not_mem_nil p)
  | cons q rest ih =>
    intro fs p hp
    have hred : bruteforceLoop fs (q :: rest)
        = bruteforceLoop (bruteforceTargetStep fs q.1 q.2) rest := rfl
    rw [hred]
    rcases List.mem_cons.mp hp with rfl | hp2
    · intro hc
      exact bruteforceTargetStep_not_mem fs p.1 p.2
        (bruteforceLoop_subset rest _ p.1 hc)
    · exact ih _ p hp2

/-- C10: over a bruteforce per-target loop in which every invocation returns
normally, the workspace gains no file: every file present afterwards was
present before, every temporary file created by an iteration is gone, and if
the workspace held no `<phase>_bruteforce_`-prefixed file before the loop, it
holds none afterwards for the merge pass to read. -/
theorem bruteforce_temp_files_deleted (phase : String) (fs : List String)
    (steps : List (String × Bool))
    (hfs : ∀ n ∈ fs, strStartsWith n (phase ++ "_bruteforce_") = false) :
    (∀ n ∈ bruteforceLoop fs steps, n ∈ fs) ∧
    (∀ p ∈ steps, p.1 ∉ bruteforceLoop fs steps) ∧
    (∀ n ∈ bruteforceLoop fs steps,
      strStartsWith n (phase ++ "_bruteforce_") = false) := by
  refine ⟨bruteforceLoop_subset steps fs, bruteforceLoop_removes_temps steps fs, ?_⟩
  intro n hn
  exact hfs n (bruteforceLoop_subset steps fs n hn)

/-- Witness for C10: one existing tool file, one successful per-target
iteration; its temporary file is absent afterwards. -/
theorem bruteforce_temp_files_deleted_witness :
    ("static_bruteforce_ab.txt" : String)
      ∉ bruteforceLoop ["crtsh.txt"] [("static_bruteforce_ab.txt", true)] :=
  (bruteforce_temp_files_deleted "static" ["crtsh.txt"]
    [("static_bruteforce_ab.txt", true)] (by decide)).2.1
    ("static_bruteforce_ab.txt", true) (by decide)

end WatchMySix
